import Mathlib

/-! Shallow embedding of `probnum/linalg/linearsolvers/matrixbased.py`
(`ProbabilisticLinearSolver._check_convergence` and `SymmetricMatrixBasedSolver`)
over exact rationals.

Conventions:
* numpy vectors and square matrices of floats become `Fin n → ℚ` and
  `Matrix (Fin n) (Fin n) ℚ`; the lazily composed `linops.LinearOperator`
  objects of the source are represented extensionally by the matrix of the
  linear map they implement (their only observable behaviour is `matvec`).
* `np.linalg.norm(r) <= t` (Euclidean norm) is expressed exactly, without
  square roots, by `0 ≤ t ∧ (Σ rᵢ²) ≤ t²`, and
  `np.linalg.norm(r) <= c * np.linalg.norm(b)` by the analogous square-free
  characterisation.
* the GPy Gaussian-process regression used inside `_calibrate_uncertainty`
  (together with the surrounding `np.log`/`np.exp` transforms) is an external
  black box, excluded from the core by the specification; it enters the model
  as an abstract predictor function producing the predicted Rayleigh
  quotients `R_pred`.
* the non-fatal `warnings.warn` emitted by `_check_convergence` is modelled as
  a boolean component of its result.
-/

namespace Probnum

open Matrix

abbrev Vec (n : ℕ) := Fin n → ℚ

abbrev Mat (n : ℕ) := Matrix (Fin n) (Fin n) ℚ

/-- Squared Euclidean norm `Σ rᵢ²` of a vector. -/
def sqnorm {n : ℕ} (r : Vec n) : ℚ := ∑ i, (r i) ^ 2

/-- Exact model of `np.linalg.norm(r) <= t`: the Euclidean norm of `r` is at
most `t` iff `t` is nonnegative and the squared norm is at most `t²`. -/
def normLe {n : ℕ} (r : Vec n) (t : ℚ) : Bool :=
  decide (0 ≤ t ∧ sqnorm r ≤ t ^ 2)

/-- Exact model of `np.linalg.norm(r) <= c * np.linalg.norm(b)`:
`√R ≤ c·√B` iff (`c ≥ 0` and `R ≤ c²·B`) or (`c < 0`, `B = 0` and `R = 0`). -/
def normLeScaled {n : ℕ} (r : Vec n) (c : ℚ) (b : Vec n) : Bool :=
  decide ((0 ≤ c ∧ sqnorm r ≤ c ^ 2 * sqnorm b) ∨
          (c < 0 ∧ sqnorm b = 0 ∧ sqnorm r = 0))

/-- `ProbabilisticLinearSolver._check_convergence` (matrixbased.py lines
38–76).  Returns `(has_converged, convergence_criterion, warning_emitted)`;
the third component records the `warnings.warn` call on the `maxiter`
branch. -/
def check_convergence {n : ℕ} (b : Vec n) (iter maxiter : ℕ)
    (resid : Vec n) (atol rtol : ℚ) : Bool × String × Bool :=
  if maxiter ≤ iter then (true, "maxiter", true)
  else if normLe resid atol then (true, "resid_atol", false)
  else if normLeScaled resid rtol b then (true, "resid_rtol", false)
  else (false, "", false)

/-- The mutable attributes of a `SymmetricMatrixBasedSolver` instance:
belief means and covariance Kronecker factors for `A` and `A⁻¹`, the solution
estimate `x`, the archives `S`, `Y`, `sy`, and the iteration counter. -/
structure SolverState (n : ℕ) where
  A_mean : Mat n
  A_covfactor : Mat n
  Ainv_mean : Mat n
  Ainv_covfactor : Mat n
  x : Vec n
  S : List (Vec n)
  Y : List (Vec n)
  sy : List ℚ
  iter_ : ℕ

/-- Solver state together with the loop-local `resid` variable of `solve`. -/
structure IterState (n : ℕ) where
  st : SolverState n
  resid : Vec n

/-- Elementwise division of a numpy vector by a scalar (`Vs / (s.T @ Vs)`). -/
def vecDiv {n : ℕ} (v : Vec n) (c : ℚ) : Vec n := fun i => v i / c

/-- `SymmetricMatrixBasedSolver._mean_update`: the linear operator
`x ↦ u (vᵀx) + v (uᵀx)`, i.e. the matrix `u vᵀ + v uᵀ`. -/
def mean_update {n : ℕ} (u v : Vec n) : Mat n :=
  vecMulVec u v + vecMulVec v u

/-- `SymmetricMatrixBasedSolver._covariance_update`: the linear operator
`x ↦ u (Wsᵀ x)`, i.e. the matrix `u Wsᵀ`. -/
def covariance_update {n : ℕ} (u Ws : Vec n) : Mat n :=
  vecMulVec u Ws

/-- One pass of the body of the `while True` loop in
`SymmetricMatrixBasedSolver.solve` (matrixbased.py lines 307–346):
search direction, observation, step size, solution/residual update, rank-2
mean updates, rank-1 covariance-factor downdates, iteration increment. -/
def solveStep {n : ℕ} (A : Mat n) (p : IterState n) : IterState n :=
  let st := p.st
  let resid := p.resid
  let search_dir := -(st.Ainv_mean.mulVec resid)
  let obs := A.mulVec search_dir
  let sy := dotProduct search_dir obs
  let step_size := -(dotProduct search_dir resid) / sy
  let x' := st.x + step_size • search_dir
  let resid' := resid + step_size • obs
  let Vs := st.A_covfactor.mulVec search_dir
  let delta_A := obs - st.A_mean.mulVec search_dir
  let u_A := vecDiv Vs (dotProduct search_dir Vs)
  let v_A := delta_A - ((1 / 2 : ℚ) * dotProduct search_dir delta_A) • u_A
  let Wy := st.Ainv_covfactor.mulVec obs
  let delta_Ainv := search_dir - st.Ainv_mean.mulVec obs
  let u_Ainv := vecDiv Wy (dotProduct obs Wy)
  let v_Ainv := delta_Ainv - ((1 / 2 : ℚ) * dotProduct obs delta_Ainv) • u_Ainv
  { st :=
      { A_mean := st.A_mean + mean_update u_A v_A
        A_covfactor := st.A_covfactor - covariance_update u_A Vs
        Ainv_mean := st.Ainv_mean + mean_update u_Ainv v_Ainv
        Ainv_covfactor := st.Ainv_covfactor - covariance_update u_Ainv Wy
        x := x'
        S := st.S ++ [search_dir]
        Y := st.Y ++ [obs]
        sy := st.sy ++ [sy]
        iter_ := st.iter_ + 1 }
    resid := resid' }

theorem solveStep_iter {n : ℕ} (A : Mat n) (p : IterState n) :
    (solveStep A p).st.iter_ = p.st.iter_ + 1 := by
  simp [solveStep]

theorem check_convergence_false_lt {n : ℕ} (b : Vec n) (it mi : ℕ)
    (r : Vec n) (a rt : ℚ) :
    (check_convergence b it mi r a rt).1 = false → it < mi := by
  intro h
  by_contra hlt
  push_neg at hlt
  unfold check_convergence at h
  rw [if_pos hlt] at h
  exact absurd h (by simp)

/-- The `while True` loop of `SymmetricMatrixBasedSolver.solve`: check
convergence, break if converged, otherwise run the body and continue.
Returns the final iteration state, the last `_conv_crit`, and whether the
convergence warning was emitted. -/
def solveLoop {n : ℕ} (A : Mat n) (b : Vec n) (maxiter : ℕ)
    (atol rtol : ℚ) (p : IterState n) : IterState n × String × Bool :=
  if h : (check_convergence b p.st.iter_ maxiter p.resid atol rtol).1 = true then
    (p, (check_convergence b p.st.iter_ maxiter p.resid atol rtol).2.1,
        (check_convergence b p.st.iter_ maxiter p.resid atol rtol).2.2)
  else
    solveLoop A b maxiter atol rtol (solveStep A p)
termination_by maxiter - p.st.iter_
decreasing_by
  have h2 : p.st.iter_ < maxiter :=
    check_convergence_false_lt _ _ _ _ _ _ (by simpa using h)
  rw [solveStep_iter]
  omega

/-- State built by `SymmetricMatrixBasedSolver.__init__` combined with the
`self.iter_ = 0` reset at the top of `solve`: belief priors are stored,
`x = Ainv_mean @ b`, and the three archives start empty. -/
def initState {n : ℕ} (A_mean A_covfactor Ainv_mean Ainv_covfactor : Mat n)
    (b : Vec n) : SolverState n :=
  { A_mean := A_mean
    A_covfactor := A_covfactor
    Ainv_mean := Ainv_mean
    Ainv_covfactor := Ainv_covfactor
    x := Ainv_mean.mulVec b
    S := []
    Y := []
    sy := []
    iter_ := 0 }

/-- Initial residual `resid = self.A @ self.x - self.b` computed at the top of
`solve` (line 297), before the loop. -/
def initResid {n : ℕ} (A : Mat n) (b : Vec n) (st : SolverState n) : Vec n :=
  A.mulVec st.x - b

/-- Result of running the solver loop from the freshly initialised state. -/
def solveLoopResult {n : ℕ} (A : Mat n) (b : Vec n)
    (A_mean A_covfactor Ainv_mean Ainv_covfactor : Mat n)
    (maxiter : ℕ) (atol rtol : ℚ) : IterState n × String × Bool :=
  let st0 := initState A_mean A_covfactor Ainv_mean Ainv_covfactor b
  solveLoop A b maxiter atol rtol ⟨st0, initResid A b st0⟩

/-- The final iteration state reached by the solver loop. -/
def solveFinalState {n : ℕ} (A : Mat n) (b : Vec n)
    (A_mean A_covfactor Ainv_mean Ainv_covfactor : Mat n)
    (maxiter : ℕ) (atol rtol : ℚ) : IterState n :=
  (solveLoopResult A b A_mean A_covfactor Ainv_mean Ainv_covfactor
    maxiter atol rtol).1

/-- Model of `linops.ScalarMult(shape=..., scalar=...)`: the scalar multiple
of the identity of the given shape. -/
structure ScalarMult where
  shape : ℕ × ℕ
  scalar : ℚ

/-- `np.mean` of a list of rationals. -/
def listMean (l : List ℚ) : ℚ := l.sum / l.length

/-- Abstract black-box predictor standing for the whole GPy pipeline inside
`_calibrate_uncertainty` (the log-Rayleigh OLS intercept, the GP regression
fit/optimize/predict, and the final `np.exp`): given the archives `sy` and
`S`, the iteration count and the matrix dimension, it produces the predicted
Rayleigh quotients `R_pred` for the unexplored dimensions.  The specification
treats this regression model as an external capability. -/
abbrev RayleighPredictor (n : ℕ) :=
  List ℚ → List (Vec n) → ℕ → ℕ → List ℚ

/-- `SymmetricMatrixBasedSolver._calibrate_uncertainty` (lines 174–217):
only if strictly more than 5 iterations were performed does it build scale
operators `Phi = ScalarMult(A.shape, mean(R_pred))` and
`Psi = ScalarMult(A.shape, mean(1 / R_pred))`; otherwise both are `None`. -/
def calibrate_uncertainty {n : ℕ} (rp : RayleighPredictor n)
    (sy : List ℚ) (S : List (Vec n)) (iter : ℕ) :
    Option ScalarMult × Option ScalarMult :=
  if 5 < iter then
    let R_pred := rp sy S iter n
    (some ⟨(n, n), listMean R_pred⟩,
     some ⟨(n, n), listMean (R_pred.map (fun r => 1 / r))⟩)
  else
    (none, none)

/-- The archive list `S` (or `Y`) as the `n × k` matrix
`np.squeeze(np.array(self.S)).T` whose columns are the recorded vectors. -/
def archiveMat {n : ℕ} (l : List (Vec n)) : Matrix (Fin n) (Fin l.length) ℚ :=
  Matrix.of fun i j => l.get j i

/-- Executable matrix inverse over ℚ, `det⁻¹ • adjugate`; agrees with
Mathlib's nonsingular inverse `M⁻¹`. -/
def matInv {k : ℕ} (M : Matrix (Fin k) (Fin k) ℚ) : Matrix (Fin k) (Fin k) ℚ :=
  (M.det)⁻¹ • M.adjugate

theorem matInv_eq_inv {k : ℕ} (M : Matrix (Fin k) (Fin k) ℚ) :
    matInv M = M⁻¹ := by
  rw [Matrix.inv_def, matInv, Ring.inverse_eq_inv]

/-- The correction operator `x ↦ P (Phi (P x))` built in
`_create_output_randvars` when a calibration scale is present, where
`P = I − S (SᵀS)⁻¹ Sᵀ` models `_I_S_fun` (with `np.linalg.solve(S.T@S, w)`
modelled as multiplication by the matrix inverse) and `Phi` is the scalar
multiple `φ`.  As a matrix this is `φ · (P·P)`. -/
def projCorrection {n : ℕ} (l : List (Vec n)) (φ : ℚ) : Mat n :=
  let S := archiveMat l
  let P : Mat n := 1 - S * matInv (Sᵀ * S) * Sᵀ
  φ • (P * P)

/-- Output random variable over the solution vector `x`: mean and covariance
operator (represented by its matrix). -/
structure RandVarVec (n : ℕ) where
  mean : Vec n
  cov : Mat n

/-- Output random variable over a matrix (`A` or `A⁻¹`): mean operator and
the Kronecker factor of its symmetric-Kronecker covariance. -/
structure RandVarMat (n : ℕ) where
  mean : Mat n
  covfactor : Mat n

/-- `SymmetricMatrixBasedSolver._create_output_randvars` (lines 219–270):
optionally add the projection-based calibration corrections to the covariance
factors, then build the output random variables; the distribution on `x` has
mean `self.x` and covariance operator
`v ↦ ½ (bᵗWb · (W v) + Wb (Wbᵗ v))` with `W` the (corrected) inverse
covariance factor and `Wb = W b`, i.e. the matrix `½ (bᵗWb · W + Wb Wbᵗ)`. -/
def create_output_randvars {n : ℕ}
    (A_mean A_covfactor Ainv_mean Ainv_covfactor : Mat n)
    (x b : Vec n) (S Y : List (Vec n)) (Phi Psi : Option ScalarMult) :
    RandVarVec n × RandVarMat n × RandVarMat n :=
  let A_covfactor' := match Phi with
    | none => A_covfactor
    | some φ => A_covfactor + projCorrection S φ.scalar
  let Ainv_covfactor' := match Psi with
    | none => Ainv_covfactor
    | some ψ => Ainv_covfactor + projCorrection Y ψ.scalar
  let Wb := Ainv_covfactor'.mulVec b
  let bWb := dotProduct Wb b
  let cov_op : Mat n := (1 / 2 : ℚ) • (bWb • Ainv_covfactor' + vecMulVec Wb Wb)
  (⟨x, cov_op⟩, ⟨A_mean, A_covfactor'⟩, ⟨Ainv_mean, Ainv_covfactor'⟩)

/-- The `info` dictionary returned by `solve` (lines 371–377).  The residual
norm is recorded through its square (`resid_l2norm` is its square root);
`matrix_cond` is always `None` in the source. -/
structure SolveInfo where
  iter : ℕ
  maxiter : ℕ
  resid_l2norm_sq : ℚ
  conv_crit : String
  matrix_cond : Option ℚ

/-- Full result of `SymmetricMatrixBasedSolver.solve`, together with the flag
recording whether the non-fatal maxiter warning was emitted. -/
structure SolveResult (n : ℕ) where
  x : RandVarVec n
  A : RandVarMat n
  Ainv : RandVarMat n
  info : SolveInfo
  warned : Bool

/-- `SymmetricMatrixBasedSolver.solve` (lines 294–379): initialise, run the
convergence-checked loop, optionally calibrate, build the output random
variables and the info record. -/
def solve {n : ℕ} (rp : RayleighPredictor n) (A : Mat n) (b : Vec n)
    (A_mean A_covfactor Ainv_mean Ainv_covfactor : Mat n)
    (maxiter : ℕ) (atol rtol : ℚ) (calibrate : Bool) : SolveResult n :=
  let lp := solveLoopResult A b A_mean A_covfactor Ainv_mean Ainv_covfactor
    maxiter atol rtol
  let fin := lp.1
  let PhiPsi := if calibrate then
      calibrate_uncertainty rp fin.st.sy fin.st.S fin.st.iter_
    else (none, none)
  let out := create_output_randvars fin.st.A_mean fin.st.A_covfactor
    fin.st.Ainv_mean fin.st.Ainv_covfactor fin.st.x b fin.st.S fin.st.Y
    PhiPsi.1 PhiPsi.2
  { x := out.1
    A := out.2.1
    Ainv := out.2.2
    info :=
      { iter := fin.st.iter_
        maxiter := maxiter
        resid_l2norm_sq := sqnorm fin.resid
        conv_crit := lp.2.1
        matrix_cond := none }
    warned := lp.2.2 }

/-! Shape-level model for construction-time checks.

`SymmetricMatrixBasedSolver.__init__` (lines 163–172) performs exactly one
shape-sensitive numpy operation, `self.x = Ainv_mean @ b`; everything else is
attribute assignment.  `solve` then computes `resid = self.A @ self.x -
self.b` (line 297) before the loop; inside the loop the true system matrix
`A` is applied only in `obs = self.A @ search_dir` (line 312), and `b` is
used only through `norm(b)` in the convergence check.  We model the numpy
shape discipline: an `(r×c)` matrix applied to a length-`l` vector requires
`c = l`, and subtraction of vectors requires equal lengths.  `nA` is the side
of the square matrix `A`, `mB` the length of `b`, `nH` the side of the square
prior `Ainv_mean`. -/

/-- `A` and `b` have compatible dimensions for the system `A x = b`. -/
def dimsCompatible (nA mB : ℕ) : Bool := decide (nA = mB)

/-- Construction succeeds iff `Ainv_mean @ b` is well-shaped. -/
def constructOk (nA mB nH : ℕ) : Bool := decide (nH = mB)

/-- The pre-loop residual `A @ x - b` is well-shaped: `x = Ainv_mean @ b` has
length `nH`, so `A @ x` needs `nA = nH` and the subtraction needs
`nA = mB`. -/
def initResidOk (nA mB nH : ℕ) : Bool := decide (nA = nH ∧ nA = mB)

/-- Inside the loop, the only operation applying `A` is
`obs = A @ search_dir` with `search_dir` of length `nH`. -/
def loopApplyAOk (nA mB nH : ℕ) : Bool := decide (nA = nH)

/-! Helper algebra lemmas. -/

theorem vecDiv_eq_smul {n : ℕ} (v : Vec n) (c : ℚ) : vecDiv v c = c⁻¹ • v := by
  funext i
  simp [vecDiv, div_eq_inv_mul]

theorem vecMulVec_mulVec_eq {n : ℕ} (u v w : Vec n) :
    (vecMulVec u v).mulVec w = (dotProduct v w) • u := by
  ext i
  simp only [mulVec, dotProduct, vecMulVec_apply, Pi.smul_apply, smul_eq_mul,
    Finset.sum_mul]
  exact Finset.sum_congr rfl fun j _ => by ring

theorem smul_vecMulVec_eq {n : ℕ} (c : ℚ) (u v : Vec n) :
    vecMulVec (c • u) v = c • vecMulVec u v := by
  ext i j
  simp [vecMulVec_apply, mul_assoc]

theorem vecMulVec_transpose_eq {n : ℕ} (u v : Vec n) :
    (vecMulVec u v)ᵀ = vecMulVec v u := by
  ext i j
  simp [vecMulVec_apply, mul_comm]

theorem dotProduct_mulVec_symm {n : ℕ} {W : Mat n} (h : W.IsSymm)
    (a c : Vec n) :
    dotProduct a (W.mulVec c) = dotProduct c (W.mulVec a) := by
  have h' : Wᵀ = W := h
  have hWa : a ᵥ* W = W *ᵥ a := by
    conv_lhs => rw [← h']
    rw [vecMul_transpose]
  rw [dotProduct_mulVec, hWa, dotProduct_comm]

/-- Cauchy–Schwarz inequality for the positive-semidefinite bilinear form
`(a, c) ↦ aᵗ W c` of a symmetric PSD matrix `W`. -/
theorem psd_cauchy {n : ℕ} {W : Mat n} (hsym : W.IsSymm)
    (hpsd : ∀ z : Vec n, 0 ≤ dotProduct z (W.mulVec z)) (s z : Vec n) :
    (dotProduct z (W.mulVec s)) ^ 2 ≤
      dotProduct s (W.mulVec s) * dotProduct z (W.mulVec z) := by
  set a := dotProduct s (W.mulVec s) with ha_def
  set bb := dotProduct z (W.mulVec s) with hbb_def
  set c := dotProduct z (W.mulVec z) with hc_def
  have hsz : dotProduct s (W.mulVec z) = bb := dotProduct_mulVec_symm hsym s z
  have ha0 : 0 ≤ a := hpsd s
  have hc0 : 0 ≤ c := hpsd z
  rcases eq_or_ne a 0 with ha | ha
  · have hbb0 : bb = 0 := by
      by_contra hbb
      have h1 := hpsd (z + (-((c + 1) / (2 * bb))) • s)
      simp only [mulVec_add, mulVec_smul, dotProduct_add, add_dotProduct,
        dotProduct_smul, smul_dotProduct, smul_eq_mul, hsz, ← ha_def,
        ← hbb_def, ← hc_def, ha, mul_zero, add_zero] at h1
      have ht : -((c + 1) / (2 * bb)) * bb = -((c + 1) / 2) := by
        field_simp
        ring
      rw [ht] at h1
      linarith
    rw [hbb0, ha]
    simp
  · have ha' : 0 < a := lt_of_le_of_ne ha0 (Ne.symm ha)
    have h1 := hpsd (a • z - bb • s)
    simp only [mulVec_sub, mulVec_smul, dotProduct_sub, sub_dotProduct,
      dotProduct_smul, smul_dotProduct, smul_eq_mul, hsz, ← ha_def,
      ← hbb_def, ← hc_def] at h1
    nlinarith [h1, ha']

/-- The rank-1 covariance downdate of the source,
`W ← W − (W s / (sᵗ W s)) (W s)ᵀ`, keeps the factor symmetric and positive
semidefinite (over exact arithmetic; a zero Rayleigh denominator is treated
with the `x / 0 = 0` convention, leaving the factor unchanged). -/
theorem downdate_preserves {n : ℕ} {W : Mat n} (hsym : W.IsSymm)
    (hpsd : ∀ z : Vec n, 0 ≤ dotProduct z (W.mulVec z)) (s : Vec n) :
    (W - covariance_update
        (vecDiv (W.mulVec s) (dotProduct s (W.mulVec s))) (W.mulVec s)).IsSymm
    ∧ ∀ z : Vec n, 0 ≤ dotProduct z
        ((W - covariance_update
          (vecDiv (W.mulVec s) (dotProduct s (W.mulVec s)))
          (W.mulVec s)).mulVec z) := by
  have hrw : covariance_update
      (vecDiv (W.mulVec s) (dotProduct s (W.mulVec s))) (W.mulVec s) =
      (dotProduct s (W.mulVec s))⁻¹ • vecMulVec (W.mulVec s) (W.mulVec s) := by
    rw [covariance_update, vecDiv_eq_smul, smul_vecMulVec_eq]
  constructor
  · show (W - _)ᵀ = W - _
    rw [hrw, transpose_sub, transpose_smul, vecMulVec_transpose_eq, hsym]
  · intro z
    rw [hrw, sub_mulVec, smul_mulVec_assoc, vecMulVec_mulVec_eq,
      dotProduct_sub, dotProduct_smul, dotProduct_smul]
    set a := dotProduct s (W.mulVec s) with ha_def
    set bb := dotProduct z (W.mulVec s) with hbb_def
    have hzs : dotProduct (W.mulVec s) z = bb := by
      rw [hbb_def, dotProduct_comm]
    rw [hzs]
    rcases eq_or_ne a 0 with ha | ha
    · rw [ha]
      simpa using hpsd z
    · have ha' : 0 < a := lt_of_le_of_ne (hpsd s) (Ne.symm ha)
      have hcs := psd_cauchy hsym hpsd s z
      rw [← ha_def, ← hbb_def] at hcs
      have h2 : a⁻¹ * (bb * bb) ≤ dotProduct z (W.mulVec z) := by
        rw [inv_mul_le_iff₀ ha', mul_comm]
        nlinarith [hcs]
      simp only [smul_eq_mul]
      linarith

/-- The central belief-state invariant: both covariance Kronecker factors are
symmetric and positive semidefinite. -/
def CovInvariant {n : ℕ} (p : IterState n) : Prop :=
  p.st.A_covfactor.IsSymm
  ∧ (∀ z : Vec n, 0 ≤ dotProduct z (p.st.A_covfactor.mulVec z))
  ∧ p.st.Ainv_covfactor.IsSymm
  ∧ (∀ z : Vec n, 0 ≤ dotProduct z (p.st.Ainv_covfactor.mulVec z))

theorem solveStep_A_covfactor {n : ℕ} (A : Mat n) (p : IterState n) :
    (solveStep A p).st.A_covfactor =
      p.st.A_covfactor - covariance_update
        (vecDiv (p.st.A_covfactor.mulVec (-(p.st.Ainv_mean.mulVec p.resid)))
          (dotProduct (-(p.st.Ainv_mean.mulVec p.resid))
            (p.st.A_covfactor.mulVec (-(p.st.Ainv_mean.mulVec p.resid)))))
        (p.st.A_covfactor.mulVec (-(p.st.Ainv_mean.mulVec p.resid))) := by
  simp [solveStep]

theorem solveStep_Ainv_covfactor {n : ℕ} (A : Mat n) (p : IterState n) :
    (solveStep A p).st.Ainv_covfactor =
      p.st.Ainv_covfactor - covariance_update
        (vecDiv (p.st.Ainv_covfactor.mulVec
            (A.mulVec (-(p.st.Ainv_mean.mulVec p.resid))))
          (dotProduct (A.mulVec (-(p.st.Ainv_mean.mulVec p.resid)))
            (p.st.Ainv_covfactor.mulVec
              (A.mulVec (-(p.st.Ainv_mean.mulVec p.resid))))))
        (p.st.Ainv_covfactor.mulVec
          (A.mulVec (-(p.st.Ainv_mean.mulVec p.resid)))) := by
  simp [solveStep]

theorem solveStep_preserves_cov {n : ℕ} (A : Mat n) (p : IterState n)
    (h : CovInvariant p) : CovInvariant (solveStep A p) := by
  obtain ⟨h1, h2, h3, h4⟩ := h
  have hA := downdate_preserves h1 h2 (-(p.st.Ainv_mean.mulVec p.resid))
  have hH := downdate_preserves h3 h4
    (A.mulVec (-(p.st.Ainv_mean.mulVec p.resid)))
  refine ⟨?_, ?_, ?_, ?_⟩
  · rw [solveStep_A_covfactor]
    exact hA.1
  · rw [solveStep_A_covfactor]
    exact hA.2
  · rw [solveStep_Ainv_covfactor]
    exact hH.1
  · rw [solveStep_Ainv_covfactor]
    exact hH.2

theorem check_convergence_true_of_maxiter {n : ℕ} (b : Vec n) (it mi : ℕ)
    (r : Vec n) (a rt : ℚ) (h : mi ≤ it) :
    (check_convergence b it mi r a rt).1 = true := by
  rw [check_convergence, if_pos h]

theorem solveLoop_preserves_cov {n : ℕ} (A : Mat n) (b : Vec n)
    (maxiter : ℕ) (atol rtol : ℚ) (p : IterState n) (hp : CovInvariant p) :
    CovInvariant (solveLoop A b maxiter atol rtol p).1 := by
  have key : ∀ fuel : ℕ, ∀ q : IterState n, maxiter - q.st.iter_ ≤ fuel →
      CovInvariant q → CovInvariant (solveLoop A b maxiter atol rtol q).1 := by
    intro fuel
    induction fuel with
    | zero =>
      intro q hf hq
      have hmi : maxiter ≤ q.st.iter_ := by omega
      rw [solveLoop,
        dif_pos (check_convergence_true_of_maxiter b _ _ _ _ _ hmi)]
      exact hq
    | succ f ih =>
      intro q hf hq
      rw [solveLoop]
      split
      · exact hq
      · next hc =>
        have hlt : q.st.iter_ < maxiter :=
          check_convergence_false_lt b _ maxiter _ atol rtol (by simpa using hc)
        exact ih (solveStep A q)
          (by rw [solveStep_iter]; omega) (solveStep_preserves_cov A q hq)
  exact key (maxiter - p.st.iter_) p le_rfl hp

/-- State reached after `k` executions of the loop body, starting from the
freshly initialised solver. -/
def iterAt {n : ℕ} (A : Mat n) (b : Vec n)
    (A_mean A_covfactor Ainv_mean Ainv_covfactor : Mat n) (k : ℕ) :
    IterState n :=
  (solveStep A)^[k]
    ⟨initState A_mean A_covfactor Ainv_mean Ainv_covfactor b,
     initResid A b (initState A_mean A_covfactor Ainv_mean Ainv_covfactor b)⟩

theorem iterAt_preserves_cov {n : ℕ} (A : Mat n) (b : Vec n)
    (A_mean A_covfactor Ainv_mean Ainv_covfactor : Mat n) (k : ℕ)
    (h1 : A_covfactor.IsSymm)
    (h2 : ∀ z : Vec n, 0 ≤ dotProduct z (A_covfactor.mulVec z))
    (h3 : Ainv_covfactor.IsSymm)
    (h4 : ∀ z : Vec n, 0 ≤ dotProduct z (Ainv_covfactor.mulVec z)) :
    CovInvariant (iterAt A b A_mean A_covfactor Ainv_mean Ainv_covfactor k) := by
  induction k with
  | zero => exact ⟨h1, h2, h3, h4⟩
  | succ m ih =>
    rw [iterAt, Function.iterate_succ_apply']
    exact solveStep_preserves_cov A _ ih

/-! Claim theorems. -/

/-- C1: the symmetric matrix-based solver initialises `x₀ = Ainv_mean · b`
with iteration counter `0` and `residual₀ = A·x₀ − b`, and every executed
iteration (i.e. every loop continuation on a non-converged check) applies the
loop body, which computes the search direction `s = −Ainv_mean · residual`,
the observation `y = A · s`, the scalar `sy = sᵗ·y`, the step size
`α = −(sᵗ·residual) / sy`, and the updates `x ← x + α·s`,
`residual ← residual + α·y`, appending `s`, `y`, `sy` to the archives and
incrementing the iteration counter. -/
theorem C1_solver_iteration_equations {n : ℕ} (A : Mat n) (b : Vec n)
    (A_mean A_covfactor Ainv_mean Ainv_covfactor : Mat n)
    (maxiter : ℕ) (atol rtol : ℚ) (p : IterState n) :
    (initState A_mean A_covfactor Ainv_mean Ainv_covfactor b).x =
      Ainv_mean.mulVec b
    ∧ (initState A_mean A_covfactor Ainv_mean Ainv_covfactor b).iter_ = 0
    ∧ initResid A b (initState A_mean A_covfactor Ainv_mean Ainv_covfactor b) =
        A.mulVec (Ainv_mean.mulVec b) - b
    ∧ ((check_convergence b p.st.iter_ maxiter p.resid atol rtol).1 = false →
        solveLoop A b maxiter atol rtol p =
          solveLoop A b maxiter atol rtol (solveStep A p))
    ∧ (let s := -(p.st.Ainv_mean.mulVec p.resid)
       let y := A.mulVec s
       let sy := dotProduct s y
       let α := -(dotProduct s p.resid) / sy
       (solveStep A p).st.S = p.st.S ++ [s]
       ∧ (solveStep A p).st.Y = p.st.Y ++ [y]
       ∧ (solveStep A p).st.sy = p.st.sy ++ [sy]
       ∧ (solveStep A p).st.x = p.st.x + α • s
       ∧ (solveStep A p).resid = p.resid + α • y
       ∧ (solveStep A p).st.iter_ = p.st.iter_ + 1) := by
  refine ⟨rfl, rfl, rfl, ?_, ?_⟩
  · intro h
    rw [solveLoop, dif_neg (by simp [h])]
  · refine ⟨?_, ?_, ?_, ?_, ?_, ?_⟩ <;> simp [solveStep]

theorem C1_solver_iteration_equations_witness :
    (check_convergence ![(1 : ℚ)] 0 1
        (initResid !![(0 : ℚ)] ![1] (initState 1 1 1 1 ![1])) 0 0).1 = false
    ∧ solveLoop !![(0 : ℚ)] ![1] 1 0 0
        ⟨initState 1 1 1 1 ![1],
         initResid !![(0 : ℚ)] ![1] (initState 1 1 1 1 ![1])⟩ =
      solveLoop !![(0 : ℚ)] ![1] 1 0 0
        (solveStep !![(0 : ℚ)]
          ⟨initState 1 1 1 1 ![1],
           initResid !![(0 : ℚ)] ![1] (initState 1 1 1 1 ![1])⟩) := by
  have hresid : initResid !![(0 : ℚ)] ![1] (initState 1 1 1 1 ![1]) = ![-1] := by
    funext i
    fin_cases i
    simp [initResid, initState, Matrix.mulVec, Matrix.dotProduct]
  have hc : (check_convergence ![(1 : ℚ)] 0 1
      (initResid !![(0 : ℚ)] ![1] (initState 1 1 1 1 ![1])) 0 0).1 = false := by
    rw [hresid]
    norm_num [check_convergence, normLe, normLeScaled, sqnorm,
      Fin.sum_univ_one]
  exact ⟨hc,
    (C1_solver_iteration_equations !![(0 : ℚ)] ![1] 1 1 1 1 1 0 0
      ⟨initState 1 1 1 1 ![1],
       initResid !![(0 : ℚ)] ![1] (initState 1 1 1 1 ![1])⟩).2.2.2.1 hc⟩

/-- C2: each iteration applies the rank-2 update engine exactly: with
`Vs = A_covfactor·s`, `δ_A = y − A_mean·s`, `u_A = Vs/(sᵗ·Vs)`,
`v_A = δ_A − ½(sᵗ·δ_A)·u_A`, the mean becomes
`A_mean + (u_A v_Aᵗ + v_A u_Aᵗ)` and the covariance factor
`A_covfactor − u_A Vsᵗ`; and the mirrored formulas with
`Wy = Ainv_covfactor·y`, `δ_Ainv = s − Ainv_mean·y` are applied to
`Ainv_mean` and `Ainv_covfactor`. -/
theorem C2_rank2_update_formulas {n : ℕ} (A : Mat n) (p : IterState n) :
    let s := -(p.st.Ainv_mean.mulVec p.resid)
    let y := A.mulVec s
    let Vs := p.st.A_covfactor.mulVec s
    let dA := y - p.st.A_mean.mulVec s
    let uA := vecDiv Vs (dotProduct s Vs)
    let vA := dA - ((1 / 2 : ℚ) * dotProduct s dA) • uA
    let Wy := p.st.Ainv_covfactor.mulVec y
    let dH := s - p.st.Ainv_mean.mulVec y
    let uH := vecDiv Wy (dotProduct y Wy)
    let vH := dH - ((1 / 2 : ℚ) * dotProduct y dH) • uH
    (solveStep A p).st.A_mean =
      p.st.A_mean + (vecMulVec uA vA + vecMulVec vA uA)
    ∧ (solveStep A p).st.A_covfactor = p.st.A_covfactor - vecMulVec uA Vs
    ∧ (solveStep A p).st.Ainv_mean =
        p.st.Ainv_mean + (vecMulVec uH vH + vecMulVec vH uH)
    ∧ (solveStep A p).st.Ainv_covfactor =
        p.st.Ainv_covfactor - vecMulVec uH Wy := by
  refine ⟨?_, ?_, ?_, ?_⟩ <;> simp [solveStep, mean_update, covariance_update]

/-- C3: starting from symmetric positive-semidefinite prior covariance
factors, after any number of executed iterations both `A_covfactor` and
`Ainv_covfactor` are still symmetric (equal to their transpose as operators)
and positive semidefinite (`zᵗ·(W·z) ≥ 0` for every probe vector `z`) —
exactly, since the model uses exact arithmetic; the same holds for the state
in which the solver loop terminates. -/
theorem C3_covfactors_symmetric_psd {n : ℕ} (A : Mat n) (b : Vec n)
    (A_mean A_covfactor Ainv_mean Ainv_covfactor : Mat n)
    (maxiter : ℕ) (atol rtol : ℚ) (k : ℕ) (z : Vec n)
    (h1 : A_covfactor.IsSymm)
    (h2 : ∀ w : Vec n, 0 ≤ dotProduct w (A_covfactor.mulVec w))
    (h3 : Ainv_covfactor.IsSymm)
    (h4 : ∀ w : Vec n, 0 ≤ dotProduct w (Ainv_covfactor.mulVec w)) :
    ((iterAt A b A_mean A_covfactor Ainv_mean Ainv_covfactor k).st.A_covfactor.IsSymm
      ∧ 0 ≤ dotProduct z
          ((iterAt A b A_mean A_covfactor Ainv_mean Ainv_covfactor
            k).st.A_covfactor.mulVec z)
      ∧ (iterAt A b A_mean A_covfactor Ainv_mean Ainv_covfactor
          k).st.Ainv_covfactor.IsSymm
      ∧ 0 ≤ dotProduct z
          ((iterAt A b A_mean A_covfactor Ainv_mean Ainv_covfactor
            k).st.Ainv_covfactor.mulVec z))
    ∧ ((solveFinalState A b A_mean A_covfactor Ainv_mean Ainv_covfactor
          maxiter atol rtol).st.A_covfactor.IsSymm
      ∧ 0 ≤ dotProduct z
          ((solveFinalState A b A_mean A_covfactor Ainv_mean Ainv_covfactor
            maxiter atol rtol).st.A_covfactor.mulVec z)
      ∧ (solveFinalState A b A_mean A_covfactor Ainv_mean Ainv_covfactor
          maxiter atol rtol).st.Ainv_covfactor.IsSymm
      ∧ 0 ≤ dotProduct z
          ((solveFinalState A b A_mean A_covfactor Ainv_mean Ainv_covfactor
            maxiter atol rtol).st.Ainv_covfactor.mulVec z)) := by
  have hiter := iterAt_preserves_cov A b A_mean A_covfactor Ainv_mean
    Ainv_covfactor k h1 h2 h3 h4
  have hfin : CovInvariant (solveFinalState A b A_mean A_covfactor Ainv_mean
      Ainv_covfactor maxiter atol rtol) :=
    solveLoop_preserves_cov A b maxiter atol rtol _ ⟨h1, h2, h3, h4⟩
  exact ⟨⟨hiter.1, hiter.2.1 z, hiter.2.2.1, hiter.2.2.2 z⟩,
         ⟨hfin.1, hfin.2.1 z, hfin.2.2.1, hfin.2.2.2 z⟩⟩

theorem C3_covfactors_symmetric_psd_witness :
    ((iterAt !![(0 : ℚ)] ![1] 1 1 1 1 1).st.A_covfactor.IsSymm
      ∧ 0 ≤ dotProduct ![(3 : ℚ)]
          ((iterAt !![(0 : ℚ)] ![1] 1 1 1 1 1).st.A_covfactor.mulVec ![3])
      ∧ (iterAt !![(0 : ℚ)] ![1] 1 1 1 1 1).st.Ainv_covfactor.IsSymm
      ∧ 0 ≤ dotProduct ![(3 : ℚ)]
          ((iterAt !![(0 : ℚ)] ![1] 1 1 1 1 1).st.Ainv_covfactor.mulVec ![3]))
    ∧ ((solveFinalState !![(0 : ℚ)] ![1] 1 1 1 1 1 0 0).st.A_covfactor.IsSymm
      ∧ 0 ≤ dotProduct ![(3 : ℚ)]
          ((solveFinalState !![(0 : ℚ)] ![1] 1 1 1 1 1 0 0).st.A_covfactor.mulVec ![3])
      ∧ (solveFinalState !![(0 : ℚ)] ![1] 1 1 1 1 1 0 0).st.Ainv_covfactor.IsSymm
      ∧ 0 ≤ dotProduct ![(3 : ℚ)]
          ((solveFinalState !![(0 : ℚ)] ![1] 1 1 1 1 1 0 0).st.Ainv_covfactor.mulVec
            ![3])) := by
  have hpsd : ∀ w : Vec 1, 0 ≤ dotProduct w ((1 : Mat 1).mulVec w) := by
    intro w
    simp only [one_mulVec, dotProduct, Fin.sum_univ_one]
    exact mul_self_nonneg _
  exact C3_covfactors_symmetric_psd !![(0 : ℚ)] ![1] 1 1 1 1 1 0 0 1 ![3]
    Matrix.isSymm_one hpsd Matrix.isSymm_one hpsd

/-- C4: the convergence check evaluates its criteria in priority order:
`iteration ≥ maxiter` gives `(converged, "maxiter")` with a warning even if a
residual tolerance is also met; otherwise `‖residual‖₂ ≤ atol` gives
`(converged, "resid_atol")`; otherwise `‖residual‖₂ ≤ rtol·‖b‖₂` gives
`(converged, "resid_rtol")`; otherwise it reports not converged with an
empty criterion (and no warning). -/
theorem C4_check_convergence_priority {n : ℕ} (b resid : Vec n)
    (iter maxiter : ℕ) (atol rtol : ℚ) :
    (maxiter ≤ iter →
      check_convergence b iter maxiter resid atol rtol = (true, "maxiter", true))
    ∧ (iter < maxiter → normLe resid atol = true →
      check_convergence b iter maxiter resid atol rtol =
        (true, "resid_atol", false))
    ∧ (iter < maxiter → normLe resid atol = false →
        normLeScaled resid rtol b = true →
      check_convergence b iter maxiter resid atol rtol =
        (true, "resid_rtol", false))
    ∧ (iter < maxiter → normLe resid atol = false →
        normLeScaled resid rtol b = false →
      check_convergence b iter maxiter resid atol rtol = (false, "", false)) := by
  refine ⟨?_, ?_, ?_, ?_⟩
  · intro h
    rw [check_convergence, if_pos h]
  · intro h h2
    rw [check_convergence, if_neg (by omega), if_pos h2]
  · intro h h2 h3
    rw [check_convergence, if_neg (by omega), if_neg (by simp [h2]),
      if_pos h3]
  · intro h h2 h3
    rw [check_convergence, if_neg (by omega), if_neg (by simp [h2]),
      if_neg (by simp [h3])]

theorem C4_check_convergence_priority_witness :
    check_convergence ![(1 : ℚ)] 3 2 ![0] 1 1 = (true, "maxiter", true) :=
  (C4_check_convergence_priority ![(1 : ℚ)] ![0] 3 2 1 1).1 (by omega)

theorem covOp_apply {n : ℕ} (W : Mat n) (b v : Vec n) :
    ((1 / 2 : ℚ) • ((dotProduct (W.mulVec b) b) • W +
        vecMulVec (W.mulVec b) (W.mulVec b))).mulVec v =
      (1 / 2 : ℚ) • ((dotProduct b (W.mulVec b)) • W.mulVec v +
        (dotProduct (W.mulVec b) v) • (W.mulVec b)) := by
  rw [smul_mulVec_assoc, add_mulVec, smul_mulVec_assoc, vecMulVec_mulVec_eq,
    dotProduct_comm (W.mulVec b) b]

/-- C5: the output distribution over `x` has mean equal to the final `x`
estimate of the loop, and its covariance operator applied to any vector `v`
equals `½·((bᵗWb)·(W·v) + Wb·(Wbᵗ·v))` where `W` is the final inverse
covariance factor (after any calibration correction) and `Wb = W·b`. -/
theorem C5_output_x_distribution {n : ℕ} (rp : RayleighPredictor n)
    (A : Mat n) (b : Vec n)
    (A_mean A_covfactor Ainv_mean Ainv_covfactor : Mat n)
    (maxiter : ℕ) (atol rtol : ℚ) (calibrate : Bool) (v : Vec n) :
    let res := solve rp A b A_mean A_covfactor Ainv_mean Ainv_covfactor
      maxiter atol rtol calibrate
    let W := res.Ainv.covfactor
    let Wb := W.mulVec b
    res.x.mean =
      (solveFinalState A b A_mean A_covfactor Ainv_mean Ainv_covfactor
        maxiter atol rtol).st.x
    ∧ res.x.cov.mulVec v =
        (1 / 2 : ℚ) • ((dotProduct b Wb) • W.mulVec v +
          (dotProduct Wb v) • Wb) := by
  exact ⟨rfl, covOp_apply _ b v⟩

/-- Calibration is a no-op when at most five iterations were recorded. -/
theorem calibrate_uncertainty_le5 {n : ℕ} (rp : RayleighPredictor n)
    (sy : List ℚ) (S : List (Vec n)) (iter : ℕ) (h : iter ≤ 5) :
    calibrate_uncertainty rp sy S iter = (none, none) := by
  rw [calibrate_uncertainty, if_neg (by omega)]

/-- C6: `_calibrate_uncertainty` returns both scale operators absent when at
most 5 iterations completed; with strictly more than 5 iterations it returns
`Phi = ScalarMult(A.shape, mean(R_pred))` and
`Psi = ScalarMult(A.shape, mean(1/R_pred))`, scalar multiples of the
identity of the same shape as `A`, where `R_pred` is produced by the
black-box Rayleigh-quotient regression. -/
theorem C6_calibration_threshold {n : ℕ} (rp : RayleighPredictor n)
    (sy : List ℚ) (S : List (Vec n)) (iter : ℕ) :
    (iter ≤ 5 → calibrate_uncertainty rp sy S iter = (none, none))
    ∧ (5 < iter →
        calibrate_uncertainty rp sy S iter =
          (some ⟨(n, n), listMean (rp sy S iter n)⟩,
           some ⟨(n, n), listMean ((rp sy S iter n).map fun r => 1 / r)⟩)) := by
  constructor
  · exact calibrate_uncertainty_le5 rp sy S iter
  · intro h
    rw [calibrate_uncertainty, if_pos h]

theorem C6_calibration_threshold_witness :
    calibrate_uncertainty (fun _ _ _ _ => ([] : List ℚ)) [] ([] : List (Vec 1)) 3 =
      (none, none) :=
  (C6_calibration_threshold (fun _ _ _ _ => ([] : List ℚ)) [] [] 3).1 (by omega)

/-- C7: with `maxiter = 0` the loop performs zero iterations, the returned
`x` distribution has mean equal to the initial estimate `Ainv_mean·b`, the
info record reports convergence criterion `"maxiter"`, and the non-fatal
warning is emitted. -/
theorem C7_maxiter_zero {n : ℕ} (rp : RayleighPredictor n) (A : Mat n)
    (b : Vec n) (A_mean A_covfactor Ainv_mean Ainv_covfactor : Mat n)
    (atol rtol : ℚ) (calibrate : Bool) :
    let res := solve rp A b A_mean A_covfactor Ainv_mean Ainv_covfactor
      0 atol rtol calibrate
    res.info.iter = 0 ∧ res.x.mean = Ainv_mean.mulVec b
    ∧ res.info.conv_crit = "maxiter" ∧ res.warned = true := by
  have hloop : ∀ p : IterState n,
      p.st.iter_ = 0 → solveLoop A b 0 atol rtol p = (p, "maxiter", true) := by
    intro p hp
    rw [solveLoop,
      dif_pos (check_convergence_true_of_maxiter b _ _ _ _ _ (by omega))]
    rw [check_convergence, if_pos (by omega)]
  have hres := hloop
    ⟨initState A_mean A_covfactor Ainv_mean Ainv_covfactor b,
     initResid A b (initState A_mean A_covfactor Ainv_mean Ainv_covfactor b)⟩
    rfl
  refine ⟨?_, ?_, ?_, ?_⟩ <;>
  · simp only [solve, solveLoopResult, hres]
    try simp [create_output_randvars, initState]

/-- C8: the step-size division `−(sᵗ·residual) / sy` is unguarded — the loop
body of the model (like the source) computes it unconditionally — and there
is a concrete input on which an executed iteration reaches it with
`sy = sᵗ·y = 0`: for `A = [[0]]`, `b = [1]`, identity priors, `maxiter = 1`,
`atol = rtol = 0`, the first iteration runs and records `sy = 0` in the
archive at the moment of the division. -/
theorem C8_unguarded_sy_zero :
    0 < (solveFinalState !![(0 : ℚ)] ![1] 1 1 1 1 1 0 0).st.iter_
    ∧ (solveFinalState !![(0 : ℚ)] ![1] 1 1 1 1 1 0 0).st.sy = [0] := by
  simp only [solveFinalState, solveLoopResult]
  rw [solveLoop,
    dif_neg (by norm_num [check_convergence, normLe, normLeScaled, sqnorm,
      initResid, initState, Matrix.mulVec, Matrix.dotProduct,
      Fin.sum_univ_one])]
  rw [solveLoop,
    dif_pos (check_convergence_true_of_maxiter _ _ _ _ _ _
      (by rw [solveStep_iter]; simp [initState]))]
  constructor
  · rw [solveStep_iter]
    omega
  · norm_num [solveStep, initState, initResid, Matrix.mulVec,
      Matrix.dotProduct, Fin.sum_univ_one]

/-- C9 counterexample: `A` of size `2×2` and `b` of length `3` have
incompatible dimensions, yet constructing the solver with a `3×3` prior
`Ainv_mean` succeeds — `__init__` only evaluates `Ainv_mean @ b`, so the
`A`/`b` mismatch is not detected at construction time. -/
theorem C9_construct_counterexample :
    dimsCompatible 2 3 = false ∧ constructOk 2 3 3 = true := by
  constructor <;> rfl

/-- C9 (amended): when the prior `Ainv_mean` has the same size as `A`,
construction succeeds exactly when `A` and `b` are dimensionally compatible
(so the mismatch is caught at construction); in general, any solve whose
construction and pre-loop residual computation both succeed has compatible
`A`/`b` dimensions, and the only application of `A` inside the iteration
loop is well-shaped — so no `A`/`b` shape mismatch can occur there. -/
theorem C9_shape_check_amended (nA mB nH : ℕ) :
    (nH = nA → (constructOk nA mB nH = true ↔ dimsCompatible nA mB = true))
    ∧ (constructOk nA mB nH = true → initResidOk nA mB nH = true →
        dimsCompatible nA mB = true ∧ loopApplyAOk nA mB nH = true) := by
  constructor
  · intro h
    subst h
    simp [constructOk, dimsCompatible]
  · intro h1 h2
    simp only [constructOk, initResidOk, dimsCompatible, loopApplyAOk,
      decide_eq_true_eq] at *
    omega

theorem C9_shape_check_amended_witness :
    dimsCompatible 2 2 = true ∧ loopApplyAOk 2 2 2 = true :=
  (C9_shape_check_amended 2 2 2).2 rfl rfl

/-- C10: when the loop completes at most 5 iterations, `solve` with
`calibrate = true` returns exactly the same result (all output distributions
and the info record) as `solve` with `calibrate = false`: calibration yields
`(None, None)` and the posterior builder takes the identical uncorrected
path. -/
theorem C10_calibrate_noop_le5 {n : ℕ} (rp : RayleighPredictor n)
    (A : Mat n) (b : Vec n)
    (A_mean A_covfactor Ainv_mean Ainv_covfactor : Mat n)
    (maxiter : ℕ) (atol rtol : ℚ)
    (h : (solveFinalState A b A_mean A_covfactor Ainv_mean Ainv_covfactor
        maxiter atol rtol).st.iter_ ≤ 5) :
    solve rp A b A_mean A_covfactor Ainv_mean Ainv_covfactor
        maxiter atol rtol true =
      solve rp A b A_mean A_covfactor Ainv_mean Ainv_covfactor
        maxiter atol rtol false := by
  have hc := calibrate_uncertainty_le5 rp
    (solveFinalState A b A_mean A_covfactor Ainv_mean Ainv_covfactor
      maxiter atol rtol).st.sy
    (solveFinalState A b A_mean A_covfactor Ainv_mean Ainv_covfactor
      maxiter atol rtol).st.S
    (solveFinalState A b A_mean A_covfactor Ainv_mean Ainv_covfactor
      maxiter atol rtol).st.iter_ h
  simp only [solveFinalState] at hc
  simp [solve, hc]

theorem C10_calibrate_noop_le5_witness :
    solve (fun _ _ _ _ => ([] : List ℚ)) !![(0 : ℚ)] ![1] 1 1 1 1 0 0 0 true =
      solve (fun _ _ _ _ => ([] : List ℚ)) !![(0 : ℚ)] ![1] 1 1 1 1 0 0 0
        false := by
  refine C10_calibrate_noop_le5 _ _ _ _ _ _ _ _ _ _ ?_
  simp only [solveFinalState, solveLoopResult]
  rw [solveLoop,
    dif_pos (check_convergence_true_of_maxiter _ _ _ _ _ _
      (by simp [initState]))]
  simp [initState]

end Probnum
